import Mathlib

/-
Verification of the log4go rotating file sink against its specification.

The Go sources (filelog.go, filewriter.go, filerotate.go) are embedded
shallowly: the disk is a partial map from file names to contents, the
buffered file writer is a small record, and each Go function that the
claims mention becomes a Lean function mirroring its control flow.
Machine integers are modelled as Int (no overflow is relevant at the
sizes involved), time.Time as a count of seconds on the local civil
timeline with fixed 86400-second days, and fallible OS calls take their
success or failure as an explicit argument or read it off the disk map.
-/

/-- Disk model: a partial map from file names to file contents.  os.Lstat
succeeds exactly on names mapped to some content. -/
def FS : Type := String → Option String

/-- Write (create or truncate-and-replace) one name on the disk. -/
def fsUpdate (fs : FS) (name c : String) : FS :=
  fun x => if x = name then some c else fs x

/-- Model of os.Remove restricted to its effect on the disk map. -/
def fsRemove (fs : FS) (name : String) : FS :=
  fun x => if x = name then none else fs x

/-- Model of os.Rename: when the source exists its content moves to the
destination (overwriting it) and the source disappears; when the source
is missing the call fails and the disk is unchanged (the callers in
filerotate.go ignore the returned error). -/
def fsRename (fs : FS) (src dst : String) : FS :=
  match fs src with
  | none => fs
  | some c => fun x => if x = dst then some c else if x = src then none else fs x

/-- Model of os.Lstat used as an existence test. -/
def fsExists (fs : FS) (name : String) : Bool :=
  (fs name).isSome

/-- State of filewriter.go FileWriter: the backing file handle is open or
not, pos is the fd offset (the result of file.Seek(0, SEEK_CUR)), and buf
holds the bytes sitting in the bufio writer (flush > 0) that have not yet
reached the disk.  Internal spills of a full bufio buffer are modelled as
happening only at Flush and Close; they never change the concatenation of
disk content and buffer, which is the only observable the claims use. -/
structure FileWriter where
  filename : String
  flush : Int
  isOpen : Bool
  pos : Int
  buf : String
deriving DecidableEq

/-- Model of FileWriter.open with O_WRONLY, O_APPEND and O_CREATE: the file
is created empty when missing, the fd offset starts at 0 and a fresh empty
bufio buffer is installed.  The open-failure path is outside the model. -/
def FileWriter.openFile (fw : FileWriter) (disk : FS) : FileWriter × FS :=
  ({ fw with isOpen := true, pos := 0, buf := "" },
    match disk fw.filename with
    | some _ => disk
    | none => fsUpdate disk fw.filename "")

/-- Model of FileWriter.Seek(0, SEEK_CUR): the fd offset when open,
otherwise the os.Lstat size; a missing file yields 0, matching the callers
in filelog.go that ignore the Lstat error and use the zero value. -/
def FileWriter.seekCur (fw : FileWriter) (disk : FS) : Int :=
  if fw.isOpen then fw.pos
  else
    match disk fw.filename with
    | some c => (c.length : Int)
    | none => 0

/-- Model of FileWriter.WriteString: open lazily, then append to the bufio
buffer when flush > 0 and directly to the file (advancing the fd offset to
the end, as O_APPEND does) otherwise. -/
def FileWriter.writeString (fw : FileWriter) (disk : FS) (s : String) : FileWriter × FS :=
  let p := if fw.isOpen then (fw, disk) else fw.openFile disk
  let fw1 := p.1
  let d1 := p.2
  if 0 < fw1.flush then ({ fw1 with buf := fw1.buf ++ s }, d1)
  else
    let c := ((d1 fw1.filename).getD "") ++ s
    ({ fw1 with pos := (c.length : Int) }, fsUpdate d1 fw1.filename c)

/-- Model of FileWriter.Flush: move the bufio buffer to the disk when a
bufio writer is installed (open with flush > 0); file.Sync is a no-op on
this level of abstraction. -/
def FileWriter.flushBuf (fw : FileWriter) (disk : FS) : FileWriter × FS :=
  if fw.isOpen ∧ 0 < fw.flush then
    let c := ((disk fw.filename).getD "") ++ fw.buf
    ({ fw with buf := "", pos := (c.length : Int) }, fsUpdate disk fw.filename c)
  else (fw, disk)

/-- Model of FileWriter.Close: flush the bufio buffer, close the handle and
drop the bufio writer; a no-op when the handle is already closed. -/
def FileWriter.closeFile (fw : FileWriter) (disk : FS) : FileWriter × FS :=
  if fw.isOpen then
    let p := fw.flushBuf disk
    ({ p.1 with isOpen := false, buf := "" }, p.2)
  else (fw, disk)

/-- Model of FileWriter.SetFileName: close the current handle, then switch
the name. -/
def FileWriter.setFileName (fw : FileWriter) (disk : FS) (name : String) : FileWriter × FS :=
  let p := fw.closeFile disk
  ({ p.1 with filename := name }, p.2)

/-- Model of FileWriter.SetFlush: close the current handle, then change the
buffer size. -/
def FileWriter.setFlush (fw : FileWriter) (disk : FS) (n : Int) : FileWriter × FS :=
  let p := fw.closeFile disk
  ({ p.1 with flush := n }, p.2)

/-- Observable content a writer has accepted: what is on disk under its
name followed by what still sits in the bufio buffer. -/
def FileWriter.contentOf (fw : FileWriter) (disk : FS) : String :=
  ((disk fw.filename).getD "") ++ fw.buf

/-- Well-formedness of the buffer, maintained by every reachable writer
state: the bufio buffer is empty while the handle is closed (Close drops
the bufio writer after flushing) and while buffering is disabled. -/
def FileWriter.wfBuf (fw : FileWriter) : Prop :=
  (fw.isOpen = false → fw.buf = "") ∧ (fw.flush ≤ 0 → fw.buf = "")

instance (fw : FileWriter) : Decidable fw.wfBuf := by
  unfold FileWriter.wfBuf; infer_instance

/-- Default format string of filelog.go (FORMAT_DEFAULT). -/
def FORMAT_DEFAULT : String := "[%D %T] [%L] (%S) %M"

/-- Default rotate cycle in seconds (filelog.go DefaultRotCycle). -/
def DefaultRotCycle : Int := 86400

/-- Default rotate delay since midnight in seconds (DefaultRotDelay0). -/
def DefaultRotDelay0 : Int := 0

/-- Default rotate max size (DefaultRotSize, 10 MiB). -/
def DefaultRotSize : Int := 1024 * 1024 * 10

/-- Default flush size of the cache writing file (DefaultFileFlush). -/
def DefaultFileFlush : Int := 4096

/-- Go strings.TrimSuffix, computed on the character lists: when suf is a
suffix of s, drop it from the end. -/
def trimSuffix (s suf : String) : String :=
  if suf.data.isSuffixOf s.data then String.mk (s.data.take (s.data.length - suf.data.length))
  else s

/-- Go filepath.Ext: the suffix of the final element beginning at its final
dot, empty when that element has no dot. -/
def goExt (p : String) : String :=
  String.mk (goExtAux [] p.toList.reverse)
where
  /-- Walk the reversed name, rebuilding the characters seen since the end;
  stop at the first dot (inclusive) or at a path separator (no extension). -/
  goExtAux : List Char → List Char → List Char
    | _, [] => []
    | acc, c :: rest =>
      if c = '.' then c :: acc
      else if c = '/' then []
      else goExtAux (c :: acc) rest

/-- Go filepath.Dir restricted to the inputs used here: the portion before
the final separator, a bare root for "/x", and "." when there is no
separator (the Clean normalisation is omitted; it is the identity on the
already-clean directory parts this code produces). -/
def goDir (p : String) : String :=
  match p.toList.reverse.dropWhile (fun c => c ≠ '/') with
  | [] => "."
  | ['/'] => "/"
  | '/' :: rest => String.mk rest.reverse
  | _ => "."

/-- State of the filelog.go FileLogWriter record.  The message channel, the
run-loop flag and the loop-local variables are modelled separately where a
claim needs them. -/
structure FileLogWriter where
  format : String
  filename : String
  header : String
  footer : String
  maxrotate : Int
  maxsize : Int
  cycle : Int
  delay0 : Int
  writer : FileWriter
deriving DecidableEq

/-- Model of NewFileLogWriter.  The process-global DefaultFileName computed
at init time is passed in as dflt; an empty fname falls back to it. -/
def NewFileLogWriter (fname dflt : String) (maxrotate : Int) : FileLogWriter :=
  let fn := if fname = "" then dflt else fname
  { format := FORMAT_DEFAULT
    filename := fn
    header := ""
    footer := ""
    maxrotate := maxrotate
    maxsize := DefaultRotSize
    cycle := DefaultRotCycle
    delay0 := DefaultRotDelay0
    writer := { filename := fn, flush := DefaultFileFlush, isOpen := false, pos := 0, buf := "" } }

/-- Model of the init function of filelog.go computing DefaultFileName:
strip the extension from the executable base name, append ".log", and on
everything but windows prefix the home directory shorthand. -/
def defaultFileName (base : String) (windows : Bool) : String :=
  let s := trimSuffix base (goExt base) ++ ".log"
  if windows then s else "~/" ++ s

/-- Model of FileLogWriter.writeMessage.  The argument headerLine stands
for FormatLogRecord(f.header, record-now), the rendered header; msg is the
already-rendered line taken from the channel.  An empty line is discarded
before any file interaction; otherwise the header is written first when a
header is configured and the writer sits at offset zero. -/
def FileLogWriter.writeMessage (f : FileLogWriter) (disk : FS) (headerLine msg : String) :
    FileLogWriter × FS :=
  if msg = "" then (f, disk)
  else
    let p :=
      if 0 < f.header.length ∧ f.writer.seekCur disk ≤ 0 then
        f.writer.writeString disk headerLine
      else (f.writer, disk)
    let q := p.1.writeString p.2 msg
    ({ f with writer := q.1 }, q.2)

/-- Model of the enqueue in FileLogWriter.LogWrite: the rendered line
FormatLogRecord(f.format, rec) is sent to the messages channel
unconditionally (no emptiness check happens on the producer side). -/
def logWriteEnqueue (queue : List String) (rendered : String) : List String :=
  queue ++ [rendered]

/-- Spec-side concatenation of a list of lines. -/
def joinAll : List String → String
  | [] => ""
  | s :: rest => s ++ joinAll rest

/-- Model of the shutdown path of writeLoop once Close has closed the
messages channel: the loop keeps receiving the queued lines (flushing when
the queue drains), the final receive returns the zero value with ok false,
and the loop then drains (nothing is left), closes the writer and exits.
The list argument is the content of the messages channel at the moment the
channel is closed. -/
def FileLogWriter.runToClose (f : FileLogWriter) (disk : FS) (headerLine : String) :
    List String → FileLogWriter × FS
  | [] =>
    let p := f.writeMessage disk headerLine ""
    let q := p.1.writer.flushBuf p.2
    let r := q.1.closeFile q.2
    ({ p.1 with writer := r.1 }, r.2)
  | m :: rest =>
    let p := f.writeMessage disk headerLine m
    let q := if rest.isEmpty then p.1.writer.flushBuf p.2 else (p.1.writer, p.2)
    FileLogWriter.runToClose { p.1 with writer := q.1 } q.2 headerLine rest

/-- Effects of one run of the rotation step, beyond the writer and disk
state: removed records the os.Remove of the current file, renamed a
successful os.Rename to the timestamped name, renameFailed the rename
error report on the diagnostic stream, and handedToShifter the name passed
to FileRotate.Rotate. -/
structure RotEffects where
  removed : Bool := false
  renamed : Bool := false
  renameFailed : Bool := false
  handedToShifter : Option String := none
deriving DecidableEq

/-- Model of FileLogWriter.intRotate.  footerLine stands for the rendered
footer FormatLogRecord(f.footer, record-now); tstamp for the timestamp
suffix time.Now().Format(".20060102-150405"); renameErr injects an
environment failure of os.Rename (which also fails when the source file is
missing). -/
def FileLogWriter.intRotate (f : FileLogWriter) (disk : FS) (footerLine tstamp : String)
    (renameErr : Bool) : FileLogWriter × FS × RotEffects :=
  if f.writer.seekCur disk ≤ f.maxsize then (f, disk, {})
  else
    let p := if 0 < f.footer.length then f.writer.writeString disk footerLine
             else (f.writer, disk)
    let q := p.1.closeFile p.2
    if f.maxrotate ≤ 0 then
      ({ f with writer := q.1 }, fsRemove q.2 f.filename, { removed := true })
    else
      let newLog := f.filename ++ tstamp
      if renameErr ∨ q.2 f.filename = none then
        ({ f with writer := q.1 }, q.2, { renameFailed := true })
      else
        ({ f with writer := q.1 }, fsRename q.2 f.filename newLog,
          { renamed := true, handedToShifter := some newLog })

/-- State change of one timer tick of the writer loop restricted to the
writer and the disk: intRotate runs and the loop carries on. -/
def rotTick (footerLine tstamp : String) (renameErr : Bool)
    (p : FileLogWriter × FS) : FileLogWriter × FS :=
  let r := p.1.intRotate p.2 footerLine tstamp renameErr
  (r.1, r.2.1)

/-- Whether a select branch lets the writer loop keep running or reach the
CLOSE label. -/
inductive LoopCtl where
  | continueLoop
  | stopLoop
deriving DecidableEq

/-- Loop-local variables of writeLoop: the remembered cycle and delay
(old_cycle, old_delay0) and the next rotation instant nrt backing the
timer. -/
structure LoopVars where
  oldCycle : Int
  oldDelay0 : Int
  nrt : Int
deriving DecidableEq

/-- Midnight (clock 0) of the civil day containing instant t, with fixed
86400-second days. -/
def midnightOf (t : Int) : Int := t - t % 86400

/-- Model of FileLogWriter.nextRotateTime: now plus cycle when delay0 is
negative, otherwise midnight of the day after now (the civil day of
now + 24h) plus delay0 seconds. -/
def FileLogWriter.nextRotateTime (f : FileLogWriter) (now : Int) : Int :=
  if f.delay0 < 0 then now + f.cycle
  else midnightOf (now + 86400) + f.delay0

/-- Model of the timer branch of writeLoop: advance nrt by cycle, re-arm
the timer (implicit in nrt), run the rotation step, and continue the loop
unconditionally. -/
def FileLogWriter.timerStep (f : FileLogWriter) (disk : FS) (v : LoopVars)
    (footerLine tstamp : String) (renameErr : Bool) :
    (FileLogWriter × FS × LoopVars) × LoopCtl :=
  let v1 := { v with nrt := v.nrt + f.cycle }
  let r := f.intRotate disk footerLine tstamp renameErr
  ((r.1, r.2.1, v1), LoopCtl.continueLoop)

/-- Model of the resetLoop branch of writeLoop: ignore the signal when
cycle and delay0 both still equal the remembered values; otherwise replace
a cycle below 2 with 86400, remember the new values, and recompute the
next rotation instant from the current time. -/
def FileLogWriter.resetStep (f : FileLogWriter) (v : LoopVars) (now : Int) :
    FileLogWriter × LoopVars :=
  if v.oldCycle = f.cycle ∧ v.oldDelay0 = f.delay0 then (f, v)
  else
    let f1 := if f.cycle < 2 then { f with cycle := 86400 } else f
    (f1, { oldCycle := f1.cycle, oldDelay0 := f1.delay0, nrt := f1.nextRotateTime now })

/-- Go fmt.Sprintf with the verb used in filerotate.go for slot numbers:
the decimal digits left-padded with zeros to width three. -/
def fmt3 (n : Nat) : String :=
  let s := toString n
  if s.length < 3 then String.mk (List.replicate (3 - s.length) '0') ++ s else s

/-- Name of numbered backup slot n for the split base name: path ++ "." ++
fmt3 n ++ ext, as built in the scan loop of FileRotate.Rotate. -/
def slotName (path ext : String) (n : Nat) : String :=
  path ++ "." ++ fmt3 n ++ ext

/-- Model of the slot scan loop in FileRotate.Rotate: starting at index n
with the given loop fuel (the remaining admissible indices up to rotate),
walk up while os.Lstat succeeds.  Returns the final n, the last slot name
assigned, and whether err is nil on exit (true when the loop ran out of
indices or never ran, false when an Lstat failed and broke the loop). -/
def scanFrom (fs : FS) (path ext : String) : Nat → Nat → String → Bool → Nat × String × Bool
  | n, 0, slot, errNil => (n, slot, errNil)
  | n, fuel + 1, _, _ =>
    let s := slotName path ext n
    if fsExists fs s then scanFrom fs path ext (n + 1) fuel s true
    else (n, s, false)

/-- Model of the shift loop in FileRotate.Rotate: while n > 1, rename slot
n - 1 onto the current slot and step down.  The second component is the
final value of the slot variable. -/
def shiftDown (path ext : String) : Nat → FS → String → FS × String
  | 0, fs, slot => (fs, slot)
  | 1, fs, slot => (fs, slot)
  | m + 2, fs, slot =>
    let prev := slotName path ext (m + 1)
    shiftDown path ext (m + 1) (fsRename fs prev slot) prev

/-- Model of the body of the FileRotate worker for one pending file (the
per-item part of FileRotate.Rotate): split the base name, scan for the
first missing slot, when every slot up to rotate exists remove the last
scanned slot and step n back, shift the occupied slots up by one, and
rename the pending file into slot .001.  The queueing and single-worker
admission around this body are concurrency plumbing outside this model. -/
def rotateItem (fs : FS) (filename : String) (rotate : Int) (newFile : String) : FS :=
  let ext := goExt filename
  let path := trimSuffix filename ext
  let scan := scanFrom fs path ext 1 rotate.toNat "" true
  let p := if scan.2.2 then (fsRemove fs scan.2.1, scan.1 - 1) else (fs, scan.1)
  let sh := shiftDown path ext p.2 p.1 scan.2.1
  fsRename sh.1 newFile (path ++ ".001" ++ ext)

/-- Dynamic value passed to SetOption, mirroring the Go type switch over
the interface argument: int, int64, string, or any other type. -/
inductive GoVal where
  | vint (n : Int)
  | vint64 (n : Int)
  | vstr (s : String)
  | vother
deriving DecidableEq

/-- Errors SetOption can return: ErrBadValue, ErrBadOption, or the error
propagated from os.MkdirAll. -/
inductive GoErr where
  | badValue
  | badOption
  | mkdirErr
deriving DecidableEq

/-- Numeric value of a list of decimal digits. -/
def digitsToNat (l : List Char) : Nat :=
  l.foldl (fun a c => a * 10 + (c.toNat - 48)) 0

/-- Go strconv.Atoi as used by StrToNumSuffix: the callers discard the
error, so every syntactically bad input collapses to the zero value. -/
def atoi (s : String) : Int :=
  match s.toList with
  | [] => 0
  | '-' :: rest =>
    if rest ≠ [] ∧ rest.all (fun c => c.isDigit) then -(digitsToNat rest : Int) else 0
  | '+' :: rest =>
    if rest ≠ [] ∧ rest.all (fun c => c.isDigit) then (digitsToNat rest : Int) else 0
  | l => if l.all (fun c => c.isDigit) then (digitsToNat l : Int) else 0

/-- Model of StrToNumSuffix from the repository: an optional trailing K, M
or G multiplies the parsed number by mult once, twice or three times (the
Go switch falls through). -/
def strToNumSuffix (str : String) (mult : Int) : Int :=
  let p : String × Int :=
    if 1 < str.length then
      match str.toList.getLast? with
      | some 'G' => (str.dropRight 1, mult * mult * mult)
      | some 'g' => (str.dropRight 1, mult * mult * mult)
      | some 'M' => (str.dropRight 1, mult * mult)
      | some 'm' => (str.dropRight 1, mult * mult)
      | some 'K' => (str.dropRight 1, mult)
      | some 'k' => (str.dropRight 1, mult)
      | _ => (str, 1)
    else (str, 1)
  atoi p.1 * p.2

/-- Go strings.Trim with the cutset of space, carriage return and newline
used throughout SetOption. -/
def goTrim (s : String) : String :=
  let cut := fun c => c = ' ' ∨ c = '\r' ∨ c = '\n'
  String.mk (((s.toList.dropWhile cut).reverse.dropWhile cut).reverse)

/-- Nanoseconds per occurrence of one duration unit suffix, longest match
first, as accepted by time.ParseDuration. -/
def takeUnit : List Char → Option (Int × List Char)
  | 'n' :: 's' :: r => some (1, r)
  | 'u' :: 's' :: r => some (1000, r)
  | 'm' :: 's' :: r => some (1000000, r)
  | 's' :: r => some (1000000000, r)
  | 'm' :: r => some (60000000000, r)
  | 'h' :: r => some (3600000000000, r)
  | _ => none

/-- Sum in nanoseconds of a sequence of digit runs each followed by a unit
suffix. -/
def parseTerms : Nat → List Char → Option Int
  | _, [] => some 0
  | 0, _ => none
  | fuel + 1, cs =>
    let digits := cs.takeWhile (fun c => c.isDigit)
    let rest1 := cs.dropWhile (fun c => c.isDigit)
    if digits = [] then none
    else
      match takeUnit rest1 with
      | none => none
      | some (u, rest2) =>
        match parseTerms fuel rest2 with
        | none => none
        | some t => some ((digitsToNat digits : Int) * u + t)

/-- Model of Go time.ParseDuration in nanoseconds, restricted to the bare
zero and to unsigned integral terms such as 24h or 300ms, the only shapes
the claims evaluate; signed or fractional mantissas are outside the model.
The callers discard the returned error, so a parse failure collapses to
the zero duration. -/
def goParseDuration (s : String) : Int :=
  if s = "0" then 0
  else
    match parseTerms (s.length + 1) s.toList with
    | some d => d
    | none => 0

/-- Side effects of one SetOption call that are visible outside the record:
the directory name passed to os.MkdirAll, when it is called, and whether a
reset signal was sent to the running write loop. -/
structure SetEff where
  mkdirArg : Option String := none
  resetSignaled : Bool := false
deriving DecidableEq

/-- Model of FileLogWriter.SetOption.  The isRunLoop flag and the success
of os.MkdirAll come in as arguments; the filename case checks the length
of the current filename field (not of the incoming value) and creates the
directory of the current filename before assigning the new one, exactly as
the source does.  The cycle case stores the parsed duration divided by
time.Millisecond and then replaces any value below 2 with 86400. -/
def FileLogWriter.setOption (f : FileLogWriter) (disk : FS) (isRunLoop mkdirOk : Bool)
    (name : String) (v : GoVal) : Except GoErr (FileLogWriter × FS) × SetEff :=
  match name with
  | "filename" =>
    match v with
    | GoVal.vstr s =>
      if f.filename.length ≤ 0 then (Except.error GoErr.badValue, {})
      else if mkdirOk then
        let p := f.writer.setFileName disk s
        (Except.ok ({ f with filename := s, writer := p.1 }, p.2),
          { mkdirArg := some (goDir f.filename) })
      else (Except.error GoErr.mkdirErr, { mkdirArg := some (goDir f.filename) })
    | _ => (Except.error GoErr.badValue, {})
  | "flush" =>
    match v with
    | GoVal.vint n =>
      let p := f.writer.setFlush disk n
      (Except.ok ({ f with writer := p.1 }, p.2), {})
    | GoVal.vstr s =>
      let p := f.writer.setFlush disk (strToNumSuffix (goTrim s) 1024)
      (Except.ok ({ f with writer := p.1 }, p.2), {})
    | _ => (Except.error GoErr.badValue, {})
  | "maxrotate" =>
    match v with
    | GoVal.vint n => (Except.ok ({ f with maxrotate := n }, disk), {})
    | GoVal.vstr s => (Except.ok ({ f with maxrotate := strToNumSuffix (goTrim s) 1 }, disk), {})
    | _ => (Except.error GoErr.badValue, {})
  | "cycle" =>
    match v with
    | GoVal.vint n =>
      let c := if n < 2 then 86400 else n
      (Except.ok ({ f with cycle := c }, disk), { resetSignaled := isRunLoop })
    | GoVal.vint64 n =>
      let c := if n < 2 then 86400 else n
      (Except.ok ({ f with cycle := c }, disk), { resetSignaled := isRunLoop })
    | GoVal.vstr s =>
      let ms := goParseDuration s / 1000000
      let c := if ms < 2 then 86400 else ms
      (Except.ok ({ f with cycle := c }, disk), { resetSignaled := isRunLoop })
    | _ => (Except.error GoErr.badValue, {})
  | "delay0" =>
    match v with
    | GoVal.vint n => (Except.ok ({ f with delay0 := n }, disk), { resetSignaled := isRunLoop })
    | GoVal.vint64 n => (Except.ok ({ f with delay0 := n }, disk), { resetSignaled := isRunLoop })
    | GoVal.vstr s =>
      (Except.ok ({ f with delay0 := goParseDuration s / 1000000 }, disk),
        { resetSignaled := isRunLoop })
    | _ => (Except.error GoErr.badValue, {})
  | "maxsize" =>
    match v with
    | GoVal.vint n => (Except.ok ({ f with maxsize := n }, disk), {})
    | GoVal.vint64 n => (Except.ok ({ f with maxsize := n }, disk), {})
    | GoVal.vstr s => (Except.ok ({ f with maxsize := strToNumSuffix (goTrim s) 1024 }, disk), {})
    | _ => (Except.error GoErr.badValue, {})
  | "format" =>
    match v with
    | GoVal.vstr s => (Except.ok ({ f with format := s }, disk), {})
    | _ => (Except.error GoErr.badValue, {})
  | "head" =>
    match v with
    | GoVal.vstr s => (Except.ok ({ f with header := s }, disk), {})
    | _ => (Except.error GoErr.badValue, {})
  | "foot" =>
    match v with
    | GoVal.vstr s => (Except.ok ({ f with footer := s }, disk), {})
    | _ => (Except.error GoErr.badValue, {})
  | _ => (Except.error GoErr.badOption, {})

/-- Sample disk holding one two-byte log file, used to instantiate the
theorems below on concrete inputs. -/
def diskSample : FS := fun x => if x = "a.log" then some "hi" else none

/-- Sample writer built by the constructor with default options. -/
def flwSample : FileLogWriter := NewFileLogWriter "a.log" "d.log" 3

/-- Sample writer whose size threshold the file on diskSample exceeds. -/
def flwBig : FileLogWriter := { NewFileLogWriter "a.log" "d.log" 3 with maxsize := 1 }

/-- Sample writer with rotation disabled and the size threshold exceeded. -/
def flwNoRot : FileLogWriter := { NewFileLogWriter "a.log" "d.log" 0 with maxsize := 1 }

/-- Sample open writer with unflushed buffered bytes. -/
def fwBuffered : FileWriter :=
  { filename := "a.log", flush := 4096, isOpen := true, pos := 0, buf := "early " }

/-- Sample log writer owning fwBuffered. -/
def flwBuffered : FileLogWriter := { NewFileLogWriter "a.log" "d.log" 3 with writer := fwBuffered }

/-- Sample writer whose cycle was set below 2 while the loop remembers the
previous configuration. -/
def flwCycleOne : FileLogWriter := { NewFileLogWriter "a.log" "d.log" 3 with cycle := 1 }

/-- Sample loop-local variables remembering the default configuration. -/
def vSample : LoopVars := { oldCycle := 86400, oldDelay0 := 0, nrt := 500 }

/-- Sample disk for the rotation shifter: backups .001 and .002 exist, the
third slot is free, and one timestamped pending file waits. -/
def diskRot : FS := fun x =>
  if x = "app.001.log" then some "n1"
  else if x = "app.002.log" then some "n2"
  else if x = "app.log.20060102-150405" then some "pend"
  else none

/-- Contents of the numbered backups on diskRot by slot index. -/
def cRot : Nat → String := fun m => if m = 1 then "n1" else "n2"

theorem str_length_pos (s : String) (h : s ≠ "") : 0 < s.length := by
  cases s with
  | mk data =>
    cases data with
    | nil => exact absurd rfl h
    | cons c cs => simp [String.length]

theorem writeString_spec (fw : FileWriter) (disk : FS) (s : String) (h : fw.wfBuf) :
    (fw.writeString disk s).1.filename = fw.filename ∧
    (fw.writeString disk s).1.flush = fw.flush ∧
    (fw.writeString disk s).1.wfBuf ∧
    (fw.writeString disk s).1.contentOf (fw.writeString disk s).2
      = fw.contentOf disk ++ s := by
  obtain ⟨h1, h2⟩ := h
  by_cases ho : fw.isOpen = true
  · by_cases hf : 0 < fw.flush
    · simp [FileWriter.writeString, FileWriter.contentOf, FileWriter.wfBuf, ho, hf,
            String.append_assoc]
    · have hb : fw.buf = "" := h2 (by omega)
      simp [FileWriter.writeString, FileWriter.contentOf, FileWriter.wfBuf, ho, hf,
            fsUpdate, hb, String.append_empty]
  · have hb : fw.buf = "" := h1 (by simpa using ho)
    by_cases hf : 0 < fw.flush
    · cases hd : disk fw.filename with
      | none =>
        simp [FileWriter.writeString, FileWriter.openFile, FileWriter.contentOf,
              FileWriter.wfBuf, ho, hf, hd, fsUpdate, hb, String.empty_append]
      | some c =>
        simp [FileWriter.writeString, FileWriter.openFile, FileWriter.contentOf,
              FileWriter.wfBuf, ho, hf, hd, hb, String.append_empty]
    · cases hd : disk fw.filename with
      | none =>
        simp [FileWriter.writeString, FileWriter.openFile, FileWriter.contentOf,
              FileWriter.wfBuf, ho, hf, hd, fsUpdate, hb, String.empty_append,
              String.append_empty]
      | some c =>
        simp [FileWriter.writeString, FileWriter.openFile, FileWriter.contentOf,
              FileWriter.wfBuf, ho, hf, hd, fsUpdate, hb, String.append_empty]

theorem flushBuf_spec (fw : FileWriter) (disk : FS) (h : fw.wfBuf) :
    (fw.flushBuf disk).1.filename = fw.filename ∧
    (fw.flushBuf disk).1.flush = fw.flush ∧
    (fw.flushBuf disk).1.isOpen = fw.isOpen ∧
    (fw.flushBuf disk).1.wfBuf ∧
    (fw.flushBuf disk).1.contentOf (fw.flushBuf disk).2 = fw.contentOf disk := by
  obtain ⟨h1, h2⟩ := h
  by_cases hc : fw.isOpen = true ∧ 0 < fw.flush
  · simp [FileWriter.flushBuf, FileWriter.contentOf, FileWriter.wfBuf, hc, fsUpdate,
          String.append_empty]
  · unfold FileWriter.flushBuf
    rw [if_neg hc]
    exact ⟨rfl, rfl, rfl, ⟨h1, h2⟩, rfl⟩

theorem closeFile_spec (fw : FileWriter) (disk : FS) (h : fw.wfBuf) :
    (fw.closeFile disk).1.filename = fw.filename ∧
    (fw.closeFile disk).1.flush = fw.flush ∧
    (fw.closeFile disk).1.isOpen = false ∧
    (fw.closeFile disk).1.buf = "" ∧
    (fw.closeFile disk).1.wfBuf ∧
    (fw.closeFile disk).1.contentOf (fw.closeFile disk).2 = fw.contentOf disk := by
  by_cases ho : fw.isOpen = true
  · have hs := flushBuf_spec fw disk h
    have hbp : (fw.flushBuf disk).1.buf = "" := by
      by_cases hc : fw.isOpen = true ∧ 0 < fw.flush
      · simp [FileWriter.flushBuf, hc]
      · have hf : fw.flush ≤ 0 := by
          rcases not_and_or.mp hc with hna | hnb
          · exact absurd ho hna
          · omega
        simp [FileWriter.flushBuf, hc, h.2 hf]
    simp only [FileWriter.closeFile, ho, if_true]
    refine ⟨hs.1, hs.2.1, by trivial, by trivial, ⟨fun _ => rfl, fun _ => rfl⟩, ?_⟩
    have : ((fw.flushBuf disk).2 (fw.flushBuf disk).1.filename).getD "" ++ ""
        = (fw.flushBuf disk).1.contentOf (fw.flushBuf disk).2 := by
      simp [FileWriter.contentOf, hbp]
    simpa [FileWriter.contentOf] using this.trans hs.2.2.2.2
  · have ho2 : fw.isOpen = false := by simpa using ho
    have hb : fw.buf = "" := h.1 ho2
    simp [FileWriter.closeFile, ho, FileWriter.contentOf, FileWriter.wfBuf, hb, ho2]

theorem writeMessage_spec (f : FileLogWriter) (disk : FS) (hl msg : String)
    (hh : f.header = "") (hwf : f.writer.wfBuf) :
    (f.writeMessage disk hl msg).1.header = "" ∧
    (f.writeMessage disk hl msg).1.writer.filename = f.writer.filename ∧
    (f.writeMessage disk hl msg).1.writer.flush = f.writer.flush ∧
    (f.writeMessage disk hl msg).1.writer.wfBuf ∧
    (f.writeMessage disk hl msg).1.writer.contentOf (f.writeMessage disk hl msg).2
      = f.writer.contentOf disk ++ msg := by
  by_cases hm : msg = ""
  · subst hm
    simp only [FileLogWriter.writeMessage, if_pos rfl]
    exact ⟨hh, rfl, rfl, hwf, (String.append_empty _).symm⟩
  · have hcond : ¬(0 < f.header.length ∧ f.writer.seekCur disk ≤ 0) := by
      rw [hh]
      simp
    simp only [FileLogWriter.writeMessage, if_neg hm, if_neg hcond]
    have hs := writeString_spec f.writer disk msg hwf
    exact ⟨hh, hs.1, hs.2.1, hs.2.2.1, hs.2.2.2⟩

theorem setWriter_writer (g : FileLogWriter) (w : FileWriter) :
    ({ g with writer := w } : FileLogWriter).writer = w := rfl

theorem setWriter_header (g : FileLogWriter) (w : FileWriter) :
    ({ g with writer := w } : FileLogWriter).header = g.header := rfl

theorem runToClose_spec (queue : List String) :
    ∀ (f : FileLogWriter) (disk : FS) (hl : String), f.header = "" → f.writer.wfBuf →
    (f.runToClose disk hl queue).1.writer.isOpen = false ∧
    (f.runToClose disk hl queue).1.writer.buf = "" ∧
    ((f.runToClose disk hl queue).2 f.writer.filename).getD ""
      = f.writer.contentOf disk ++ joinAll queue := by
  induction queue with
  | nil =>
    intro f disk hl hh hwf
    have wm := writeMessage_spec f disk hl "" hh hwf
    set p := f.writeMessage disk hl "" with hp
    have fb := flushBuf_spec p.1.writer p.2 wm.2.2.2.1
    set q := p.1.writer.flushBuf p.2 with hq
    have cf := closeFile_spec q.1 q.2 fb.2.2.2.1
    set r := q.1.closeFile q.2 with hr
    simp only [FileLogWriter.runToClose, joinAll, ← hp, ← hq, ← hr, setWriter_writer]
    refine ⟨cf.2.2.1, cf.2.2.2.1, ?_⟩
    have hfn : r.1.filename = f.writer.filename := by rw [cf.1, fb.1, wm.2.1]
    have hcontent : r.1.contentOf r.2 = f.writer.contentOf disk := by
      rw [cf.2.2.2.2.2, fb.2.2.2.2, wm.2.2.2.2, String.append_empty]
    unfold FileWriter.contentOf at hcontent
    rw [cf.2.2.2.1, String.append_empty, hfn] at hcontent
    rw [hcontent, String.append_empty]
    rfl
  | cons m rest ih =>
    intro f disk hl hh hwf
    have wm := writeMessage_spec f disk hl m hh hwf
    set p := f.writeMessage disk hl m with hp
    by_cases hre : rest.isEmpty
    · have fb := flushBuf_spec p.1.writer p.2 wm.2.2.2.1
      set q := p.1.writer.flushBuf p.2 with hq
      have ihx := ih { p.1 with writer := q.1 } q.2 hl wm.1 fb.2.2.2.1
      simp only [FileLogWriter.runToClose, joinAll, ← hp, hre, if_true, ← hq]
      simp only [setWriter_writer] at ihx
      refine ⟨ihx.1, ihx.2.1, ?_⟩
      rw [fb.1, wm.2.1] at ihx
      rw [ihx.2.2, fb.2.2.2.2, wm.2.2.2.2, String.append_assoc]
    · have ihx := ih p.1 p.2 hl wm.1 wm.2.2.2.1
      simp only [FileLogWriter.runToClose, joinAll, ← hp, hre, if_false]
      rw [wm.2.1] at ihx
      show (p.1.runToClose p.2 hl rest).1.writer.isOpen = false ∧
        (p.1.runToClose p.2 hl rest).1.writer.buf = "" ∧
        ((p.1.runToClose p.2 hl rest).2 f.writer.filename).getD ""
          = f.writer.contentOf disk ++ (m ++ joinAll rest)
      refine ⟨ihx.1, ihx.2.1, ?_⟩
      rw [ihx.2.2, wm.2.2.2.2, String.append_assoc]

theorem writeString_fname (fw : FileWriter) (disk : FS) (s : String) :
    (fw.writeString disk s).1.filename = fw.filename := by
  unfold FileWriter.writeString FileWriter.openFile
  by_cases ho : fw.isOpen = true <;> by_cases hf : 0 < fw.flush <;> simp [ho, hf]

theorem closeFile_fname (fw : FileWriter) (disk : FS) :
    (fw.closeFile disk).1.filename = fw.filename := by
  unfold FileWriter.closeFile FileWriter.flushBuf
  by_cases ho : fw.isOpen = true <;> by_cases hf : 0 < fw.flush <;> simp [ho, hf]

theorem writeString_other (fw : FileWriter) (disk : FS) (s : String) (x : String)
    (hx : x ≠ fw.filename) : (fw.writeString disk s).2 x = disk x := by
  unfold FileWriter.writeString FileWriter.openFile
  by_cases ho : fw.isOpen = true <;> by_cases hf : 0 < fw.flush <;>
    cases hd : disk fw.filename <;> simp [ho, hf, hd, fsUpdate, hx]

theorem flushBuf_other (fw : FileWriter) (disk : FS) (x : String)
    (hx : x ≠ fw.filename) : (fw.flushBuf disk).2 x = disk x := by
  unfold FileWriter.flushBuf
  by_cases hc : fw.isOpen = true ∧ 0 < fw.flush <;> simp [hc, fsUpdate, hx]

theorem closeFile_other (fw : FileWriter) (disk : FS) (x : String)
    (hx : x ≠ fw.filename) : (fw.closeFile disk).2 x = disk x := by
  unfold FileWriter.closeFile
  by_cases ho : fw.isOpen = true <;> simp [ho, flushBuf_other fw disk x hx]

theorem writeString_isSome (fw : FileWriter) (disk : FS) (s : String) (x : String)
    (h : (disk x).isSome = true) : ((fw.writeString disk s).2 x).isSome = true := by
  unfold FileWriter.writeString FileWriter.openFile
  by_cases ho : fw.isOpen = true <;> by_cases hf : 0 < fw.flush <;>
    cases hd : disk fw.filename <;> by_cases hx : x = fw.filename <;>
      simp [ho, hf, hd, fsUpdate, hx, h] <;> simp_all

theorem flushBuf_isSome (fw : FileWriter) (disk : FS) (x : String)
    (h : (disk x).isSome = true) : ((fw.flushBuf disk).2 x).isSome = true := by
  unfold FileWriter.flushBuf
  by_cases hc : fw.isOpen = true ∧ 0 < fw.flush <;> by_cases hx : x = fw.filename <;>
    simp [hc, fsUpdate, hx, h] <;> simp_all

theorem closeFile_isSome (fw : FileWriter) (disk : FS) (x : String)
    (h : (disk x).isSome = true) : ((fw.closeFile disk).2 x).isSome = true := by
  unfold FileWriter.closeFile
  by_cases ho : fw.isOpen = true <;> simp [ho, flushBuf_isSome fw disk x h, h]

/-- C1: the rotation step is only a check.  Whenever the size read at the
check (the writer seek position) is below maxsize, intRotate returns the
writer, the disk and an empty effect record unchanged, and iterating the
timer tick any number of times leaves everything unchanged; conversely any
removal, rename or rename attempt implies the size was at or above
maxsize. -/
theorem intRotate_below_threshold (f : FileLogWriter) (disk : FS)
    (footerLine tstamp : String) (renameErr : Bool) :
    (f.writer.seekCur disk < f.maxsize →
      f.intRotate disk footerLine tstamp renameErr = (f, disk, {}) ∧
      ∀ k : Nat, (rotTick footerLine tstamp renameErr)^[k] (f, disk) = (f, disk)) ∧
    ((f.intRotate disk footerLine tstamp renameErr).2.2 ≠ ({} : RotEffects) →
      f.maxsize ≤ f.writer.seekCur disk) := by
  constructor
  · intro h
    have h1 : f.intRotate disk footerLine tstamp renameErr = (f, disk, {}) := by
      unfold FileLogWriter.intRotate
      rw [if_pos (le_of_lt h)]
    refine ⟨h1, ?_⟩
    intro k
    induction k with
    | zero => rfl
    | succ n ihn =>
      rw [Function.iterate_succ_apply]
      have h2 : rotTick footerLine tstamp renameErr (f, disk) = (f, disk) := by
        unfold rotTick
        rw [h1]
      rw [h2, ihn]
  · intro hne
    by_cases hle : f.writer.seekCur disk ≤ f.maxsize
    · exfalso
      apply hne
      unfold FileLogWriter.intRotate
      rw [if_pos hle]
    · omega

/-- C7: when the rename to the timestamped name fails during the rotation
step, the failure is reported (renameFailed), nothing is handed to the
rotation shifter, the file is neither removed nor renamed — every file
present before is still present — and the timer branch of the write loop
continues unconditionally. -/
theorem intRotate_rename_failure (f : FileLogWriter) (disk : FS)
    (footerLine tstamp : String) (v : LoopVars)
    (hsz : f.maxsize < f.writer.seekCur disk) (hrot : 0 < f.maxrotate) :
    (f.intRotate disk footerLine tstamp true).2.2.renameFailed = true ∧
    (f.intRotate disk footerLine tstamp true).2.2.handedToShifter = none ∧
    (f.intRotate disk footerLine tstamp true).2.2.removed = false ∧
    (f.intRotate disk footerLine tstamp true).2.2.renamed = false ∧
    (∀ x, (disk x).isSome = true →
      ((f.intRotate disk footerLine tstamp true).2.1 x).isSome = true) ∧
    (f.timerStep disk v footerLine tstamp true).2 = LoopCtl.continueLoop := by
  have hgt : ¬(f.writer.seekCur disk ≤ f.maxsize) := by omega
  have hmr : ¬(f.maxrotate ≤ 0) := by omega
  unfold FileLogWriter.intRotate FileLogWriter.timerStep
  rw [if_neg hgt, if_neg hmr]
  simp only [true_or, if_true, Bool.true_or]
  refine ⟨by trivial, by trivial, by trivial, by trivial, ?_, by trivial⟩
  intro x hx
  apply closeFile_isSome
  by_cases hfo : 0 < f.footer.length
  · rw [if_pos hfo]
    exact writeString_isSome _ _ _ _ hx
  · rw [if_neg hfo]
    exact hx

/-- C8: when maxrotate is at most 0 and the size check passes, the
rotation step deletes the current file and returns: no rename happens,
nothing is handed to the rotation shifter, and no other disk entry is
touched, so no backup is created. -/
theorem intRotate_norotate_deletes (f : FileLogWriter) (disk : FS)
    (footerLine tstamp : String) (renameErr : Bool)
    (hsz : f.maxsize < f.writer.seekCur disk) (hrot : f.maxrotate ≤ 0)
    (hfn : f.writer.filename = f.filename) :
    (f.intRotate disk footerLine tstamp renameErr).2.2.removed = true ∧
    (f.intRotate disk footerLine tstamp renameErr).2.2.handedToShifter = none ∧
    (f.intRotate disk footerLine tstamp renameErr).2.2.renamed = false ∧
    (f.intRotate disk footerLine tstamp renameErr).2.1 f.filename = none ∧
    (∀ x, x ≠ f.filename → (f.intRotate disk footerLine tstamp renameErr).2.1 x = disk x) := by
  have hgt : ¬(f.writer.seekCur disk ≤ f.maxsize) := by omega
  unfold FileLogWriter.intRotate
  rw [if_neg hgt, if_pos hrot]
  refine ⟨rfl, rfl, rfl, by simp [fsRemove], ?_⟩
  intro x hx
  have hx2 : x ≠ f.writer.filename := by rw [hfn]; exact hx
  simp only [fsRemove, if_neg hx]
  by_cases hfo : 0 < f.footer.length
  · rw [if_pos hfo]
    have hfn2 : x ≠ ((f.writer.writeString disk footerLine)).1.filename := by
      rw [writeString_fname]
      exact hx2
    rw [closeFile_other _ _ _ hfn2, writeString_other _ _ _ _ hx2]
  · rw [if_neg hfo]
    exact closeFile_other _ _ _ hx2

/-- C4: the next rotation instant is now plus cycle when delay0 is
negative, and otherwise the next midnight after now plus delay0 seconds,
which is strictly later than now whenever delay0 is nonnegative. -/
theorem nextRotateTime_cases (f : FileLogWriter) (now : Int) :
    (f.delay0 < 0 → f.nextRotateTime now = now + f.cycle) ∧
    (0 ≤ f.delay0 →
      f.nextRotateTime now = (midnightOf now + 86400) + f.delay0 ∧
      now < f.nextRotateTime now) := by
  unfold FileLogWriter.nextRotateTime midnightOf
  constructor
  · intro h
    rw [if_pos h]
  · intro h
    rw [if_neg (by omega : ¬f.delay0 < 0)]
    omega

/-- C5 (amended): a reconfiguration signal with cycle and delay0 both
unchanged from the remembered values is a no-op; when they changed and the
new cycle is below 2 seconds, the loop replaces the cycle with the default
86400 seconds (so it ends at least 2) before recomputing the next rotation
instant from the clamped value. -/
theorem resetStep_nop_and_default (f : FileLogWriter) (v : LoopVars) (now : Int) :
    (v.oldCycle = f.cycle ∧ v.oldDelay0 = f.delay0 → f.resetStep v now = (f, v)) ∧
    (¬(v.oldCycle = f.cycle ∧ v.oldDelay0 = f.delay0) → f.cycle < 2 →
      (f.resetStep v now).1 = { f with cycle := 86400 } ∧
      2 ≤ (f.resetStep v now).1.cycle ∧
      (f.resetStep v now).2.nrt
        = FileLogWriter.nextRotateTime { f with cycle := 86400 } now) := by
  unfold FileLogWriter.resetStep
  constructor
  · intro h
    rw [if_pos h]
  · intro h hlt
    rw [if_neg h]
    simp only [if_pos hlt]
    exact ⟨by trivial, by norm_num, by trivial⟩

/-- C6 (evaluation at the failing input): setting the cycle option from
the duration string 24h stores 86400000 — the duration counted in
milliseconds — although the cycle field is documented and consumed in
seconds, where the spec expects 86400. -/
theorem setOption_cycle_stores_milliseconds (f : FileLogWriter) (disk : FS)
    (isRunLoop mkdirOk : Bool) :
    goParseDuration "24h" = 86400 * 1000000000 ∧
    (f.setOption disk isRunLoop mkdirOk "cycle" (GoVal.vstr "24h")).1
      = Except.ok ({ f with cycle := 86400000 }, disk) ∧
    (86400000 : Int) ≠ 86400 := by
  refine ⟨by decide, ?_, by decide⟩
  rfl

/-- C9: a record whose rendered line is empty is still enqueued by
LogWrite (the channel send is unconditional) but writeMessage discards the
empty line without touching the writer or the disk, so it never reaches
the file. -/
theorem empty_line_enqueued_never_written (f : FileLogWriter) (disk : FS)
    (queue : List String) (headerLine : String) :
    logWriteEnqueue queue "" = queue ++ [""] ∧
    f.writeMessage disk headerLine "" = (f, disk) := by
  exact ⟨rfl, rfl⟩

theorem str_ne_empty_of_append_log (a : String) : a ++ ".log" ≠ "" := by
  intro h
  have h2 := congrArg String.length h
  rw [String.length_append] at h2
  have h3 : (".log" : String).length = 4 := by decide
  have h4 : ("" : String).length = 0 := by decide
  omega

theorem defaultFileName_ne_empty (base : String) (windows : Bool) :
    defaultFileName base windows ≠ "" := by
  unfold defaultFileName
  by_cases hw : windows = true
  · simp only [hw, if_pos rfl]
    exact str_ne_empty_of_append_log _
  · have hw2 : windows = false := by
      cases windows
      · rfl
      · exact absurd rfl hw
    subst hw2
    simp only [Bool.false_eq_true, if_false]
    intro h
    have h2 := congrArg String.length h
    rw [String.length_append] at h2
    have h3 : ("~/" : String).length = 2 := by decide
    have h4 : ("" : String).length = 0 := by decide
    omega

theorem NewFileLogWriter_filename (fname dflt : String) (mr : Int) :
    (NewFileLogWriter fname dflt mr).filename = if fname = "" then dflt else fname := rfl

/-- C10: on a freshly constructed writer the filename field is never
empty, so SetOption with the filename option succeeds for every new value
v, the empty string included, whenever MkdirAll succeeds (and returns the
MkdirAll error otherwise); the emptiness guard reads the current filename
field and the directory passed to MkdirAll is the directory of the current
filename, not of v. -/
theorem setOption_filename_checks_old_field (base fname v : String) (windows : Bool)
    (mr : Int) (disk : FS) (isRunLoop : Bool) :
    (NewFileLogWriter fname (defaultFileName base windows) mr).filename ≠ "" ∧
    ((NewFileLogWriter fname (defaultFileName base windows) mr).setOption disk isRunLoop true
        "filename" (GoVal.vstr v)).2.mkdirArg
      = some (goDir (NewFileLogWriter fname (defaultFileName base windows) mr).filename) ∧
    ((NewFileLogWriter fname (defaultFileName base windows) mr).setOption disk isRunLoop true
        "filename" (GoVal.vstr v)).1
      = Except.ok
          ({ NewFileLogWriter fname (defaultFileName base windows) mr with
              filename := v,
              writer :=
                (((NewFileLogWriter fname (defaultFileName base windows) mr).writer.setFileName
                  disk v)).1 },
            (((NewFileLogWriter fname (defaultFileName base windows) mr).writer.setFileName
              disk v)).2) ∧
    ((NewFileLogWriter fname (defaultFileName base windows) mr).setOption disk isRunLoop false
        "filename" (GoVal.vstr v)).1 = Except.error GoErr.mkdirErr := by
  have hne : (NewFileLogWriter fname (defaultFileName base windows) mr).filename ≠ "" := by
    rw [NewFileLogWriter_filename]
    by_cases hf : fname = ""
    · rw [if_pos hf]
      exact defaultFileName_ne_empty base windows
    · rw [if_neg hf]
      exact hf
  have hlen : ¬((NewFileLogWriter fname (defaultFileName base windows) mr).filename.length ≤ 0) := by
    have := str_length_pos _ hne
    omega
  have hlen0 : ¬((NewFileLogWriter fname (defaultFileName base windows) mr).filename.length = 0) := by
    omega
  refine ⟨hne, ?_, ?_, ?_⟩ <;>
    · unfold FileLogWriter.setOption
      simp [hlen0]

theorem slotName_one (path ext : String) : slotName path ext 1 = path ++ ".001" ++ ext := by
  unfold slotName
  have h : fmt3 1 = "001" := by decide
  rw [h, String.append_assoc path "." "001"]
  have h2 : ("." : String) ++ "001" = ".001" := by decide
  rw [h2]

theorem scanFrom_succ (fs : FS) (path ext : String) (n fuel : Nat) (sl : String) (e : Bool) :
    scanFrom fs path ext n (fuel + 1) sl e
      = if fsExists fs (slotName path ext n) = true
        then scanFrom fs path ext (n + 1) fuel (slotName path ext n) true
        else (n, slotName path ext n, false) := by
  simp only [scanFrom]

theorem scanFrom_all_exist (fs : FS) (path ext : String) :
    ∀ (fuel s : Nat) (sl : String) (e : Bool), 1 ≤ fuel →
    (∀ i, i < fuel → fsExists fs (slotName path ext (s + i)) = true) →
    scanFrom fs path ext s fuel sl e
      = (s + fuel, slotName path ext (s + fuel - 1), true) := by
  intro fuel
  induction fuel with
  | zero =>
    intro s sl e h
    omega
  | succ n ihn =>
    intro s sl e h hex
    have h0 : fsExists fs (slotName path ext s) = true := by
      have := hex 0 (by omega)
      simpa using this
    rw [scanFrom_succ, if_pos h0]
    cases n with
    | zero =>
      have e1 : s + 1 - 1 = s := by omega
      rw [e1]
      rfl
    | succ m =>
      have hex2 : ∀ i, i < m + 1 → fsExists fs (slotName path ext (s + 1 + i)) = true := by
        intro i hi
        have := hex (i + 1) (by omega)
        have e1 : s + (i + 1) = s + 1 + i := by omega
        rw [e1] at this
        exact this
      have hr := ihn (s + 1) (slotName path ext s) true (by omega) hex2
      rw [hr]
      have e1 : s + 1 + (m + 1) = s + (m + 1 + 1) := by omega
      rw [e1]

theorem scanFrom_break (fs : FS) (path ext : String) :
    ∀ (j : Nat), ∀ (fuel s : Nat) (sl : String) (e : Bool), j < fuel →
    (∀ i, i < j → fsExists fs (slotName path ext (s + i)) = true) →
    fsExists fs (slotName path ext (s + j)) = false →
    scanFrom fs path ext s fuel sl e = (s + j, slotName path ext (s + j), false) := by
  intro j
  induction j with
  | zero =>
    intro fuel s sl e hj hex hmiss
    cases fuel with
    | zero => omega
    | succ n =>
      have h0 : ¬(fsExists fs (slotName path ext s) = true) := by
        have e1 : s + 0 = s := by omega
        rw [e1] at hmiss
        rw [hmiss]
        exact Bool.false_ne_true
      rw [scanFrom_succ, if_neg h0]
      have e1 : s + 0 = s := by omega
      rw [e1]
  | succ m ihm =>
    intro fuel s sl e hj hex hmiss
    cases fuel with
    | zero => omega
    | succ n =>
      have h0 : fsExists fs (slotName path ext s) = true := by
        have := hex 0 (by omega)
        simpa using this
      have hex2 : ∀ i, i < m → fsExists fs (slotName path ext (s + 1 + i)) = true := by
        intro i hi
        have := hex (i + 1) (by omega)
        have e1 : s + (i + 1) = s + 1 + i := by omega
        rw [e1] at this
        exact this
      have hmiss2 : fsExists fs (slotName path ext (s + 1 + m)) = false := by
        have e1 : s + (m + 1) = s + 1 + m := by omega
        rw [e1] at hmiss
        exact hmiss
      have hr := ihm n (s + 1) (slotName path ext s) true (by omega) hex2 hmiss2
      rw [scanFrom_succ, if_pos h0, hr]
      have e1 : s + 1 + m = s + (m + 1) := by omega
      rw [e1]

theorem fsRename_other (fs : FS) (src dst x : String) (h1 : x ≠ src) (h2 : x ≠ dst) :
    fsRename fs src dst x = fs x := by
  unfold fsRename
  cases hc : fs src with
  | none => rfl
  | some c => simp [h1, h2]

theorem fsRename_dst (fs : FS) (src dst : String) (c : String) (h : fs src = some c) :
    fsRename fs src dst dst = some c := by
  unfold fsRename
  rw [h]
  simp

theorem fsRename_src_ne (fs : FS) (src dst : String) (c : String) (h : fs src = some c)
    (hne : src ≠ dst) : fsRename fs src dst src = none := by
  unfold fsRename
  rw [h]
  simp [hne, Ne.symm hne]

theorem shiftDown_spec (path ext : String) :
    ∀ (n : Nat) (fs : FS),
    (∀ m, 1 ≤ m → m < n → (fs (slotName path ext m)).isSome = true) →
    (∀ i j, 1 ≤ i → i ≤ n → 1 ≤ j → j ≤ n →
      slotName path ext i = slotName path ext j → i = j) →
    (∀ j, 2 ≤ j → j ≤ n →
      (shiftDown path ext n fs (slotName path ext n)).1 (slotName path ext j)
        = fs (slotName path ext (j - 1))) ∧
    (1 ≤ n → (shiftDown path ext n fs (slotName path ext n)).1 (slotName path ext 1)
        = if 2 ≤ n then none else fs (slotName path ext 1)) ∧
    (∀ x, (∀ m, 1 ≤ m → m ≤ n → x ≠ slotName path ext m) →
      (shiftDown path ext n fs (slotName path ext n)).1 x = fs x) := by
  intro n
  induction n with
  | zero =>
    intro fs hocc hinj
    refine ⟨?_, ?_, ?_⟩
    · intro j h2 h0
      omega
    · intro h1
      omega
    · intro x hx
      rfl
  | succ n0 ihn =>
    intro fs hocc hinj
    cases n0 with
    | zero =>
      refine ⟨?_, ?_, ?_⟩
      · intro j h2 h1
        omega
      · intro h1
        rw [if_neg (by omega : ¬(2 ≤ 1))]
        rfl
      · intro x hx
        rfl
    | succ m =>
      -- n = m + 2: one rename of slot (m+1) onto slot (m+2), then recursion at m + 1
      have hne12 : slotName path ext (m + 1) ≠ slotName path ext (m + 2) := by
        intro h
        have := hinj (m + 1) (m + 2) (by omega) (by omega) (by omega) (by omega) h
        omega
      obtain ⟨c1, hc1⟩ : ∃ c, fs (slotName path ext (m + 1)) = some c := by
        have := hocc (m + 1) (by omega) (by omega)
        exact Option.isSome_iff_exists.mp this
      have hstep : shiftDown path ext (m + 2) fs (slotName path ext (m + 2))
          = shiftDown path ext (m + 1)
              (fsRename fs (slotName path ext (m + 1)) (slotName path ext (m + 2)))
              (slotName path ext (m + 1)) := by
        simp only [shiftDown]
      set fs1 := fsRename fs (slotName path ext (m + 1)) (slotName path ext (m + 2)) with hfs1
      have hpre : ∀ mm, 1 ≤ mm → mm < m + 1 → (fs1 (slotName path ext mm)).isSome = true := by
        intro mm h1 h2
        have hne1 : slotName path ext mm ≠ slotName path ext (m + 1) := by
          intro h
          have := hinj mm (m + 1) h1 (by omega) (by omega) (by omega) h
          omega
        have hne2 : slotName path ext mm ≠ slotName path ext (m + 2) := by
          intro h
          have := hinj mm (m + 2) h1 (by omega) (by omega) (by omega) h
          omega
        rw [hfs1, fsRename_other fs _ _ _ hne1 hne2]
        exact hocc mm h1 (by omega)
      have hinj1 : ∀ i j, 1 ≤ i → i ≤ m + 1 → 1 ≤ j → j ≤ m + 1 →
          slotName path ext i = slotName path ext j → i = j := by
        intro i j h1 h2 h3 h4 h
        exact hinj i j h1 (by omega) h3 (by omega) h
      have ihx := ihn fs1 hpre hinj1
      refine ⟨?_, ?_, ?_⟩
      · intro j h2 hj
        rw [hstep]
        by_cases hjle : j ≤ m + 1
        · rw [ihx.1 j h2 hjle]
          have hne1 : slotName path ext (j - 1) ≠ slotName path ext (m + 1) := by
            intro h
            have := hinj (j - 1) (m + 1) (by omega) (by omega) (by omega) (by omega) h
            omega
          have hne2 : slotName path ext (j - 1) ≠ slotName path ext (m + 2) := by
            intro h
            have := hinj (j - 1) (m + 2) (by omega) (by omega) (by omega) (by omega) h
            omega
          rw [hfs1, fsRename_other fs _ _ _ hne1 hne2]
        · have hj2 : j = m + 2 := by omega
          subst hj2
          have hx : ∀ mm, 1 ≤ mm → mm ≤ m + 1 →
              slotName path ext (m + 2) ≠ slotName path ext mm := by
            intro mm h1 h2 h
            have := hinj (m + 2) mm (by omega) (by omega) h1 (by omega) h
            omega
          rw [ihx.2.2 _ hx]
          have : fs1 (slotName path ext (m + 2)) = some c1 := by
            rw [hfs1]
            exact fsRename_dst fs _ _ c1 hc1
          rw [this]
          have e1 : m + 2 - 1 = m + 1 := by omega
          rw [e1, hc1]
      · intro h1
        rw [hstep, if_pos (by omega : 2 ≤ m + 2)]
        cases m with
        | zero =>
          have := ihx.2.1 (by omega)
          rw [if_neg (by omega : ¬(2 ≤ 1))] at this
          rw [this, hfs1]
          exact fsRename_src_ne fs _ _ c1 hc1 hne12
        | succ m2 =>
          have := ihx.2.1 (by omega)
          rw [if_pos (by omega : 2 ≤ m2 + 1 + 1)] at this
          rw [this]
      · intro x hx
        rw [hstep]
        have hx1 : ∀ mm, 1 ≤ mm → mm ≤ m + 1 → x ≠ slotName path ext mm := by
          intro mm h1 h2
          exact hx mm h1 (by omega)
        rw [ihx.2.2 x hx1, hfs1,
          fsRename_other fs _ _ _ (hx (m + 1) (by omega) (by omega))
            (hx (m + 2) (by omega) (by omega))]

theorem fsRemove_self (fs : FS) (name : String) : fsRemove fs name name = none := by
  simp [fsRemove]

theorem fsRemove_other (fs : FS) (name x : String) (h : x ≠ name) :
    fsRemove fs name x = fs x := by
  simp [fsRemove, h]

/-- C2: processing one pending temporary file.  When the numbered backups
form a contiguous run .001..k with k at most maxrotate (and at least one
slot is admissible), the shifter leaves slot .001 holding the pending
content, slots 2..min(k+1, maxrotate) holding the previous slot below
them, every higher slot empty, and the pending temporary name gone: the
backups again form a contiguous run .001..min(k+1, maxrotate) with .001
newest, the oldest backup being dropped when every slot was full. -/
theorem rotate_contiguous_shift
    (fs : FS) (filename newFile path ext : String) (rotate : Int) (k : Nat)
    (c : Nat → String) (cNew : String)
    (hpath : path = trimSuffix filename (goExt filename))
    (hext : ext = goExt filename)
    (hrot : 1 ≤ rotate)
    (hk : k ≤ rotate.toNat)
    (hinj : ∀ i ∈ Finset.Icc 1 rotate.toNat, ∀ j ∈ Finset.Icc 1 rotate.toNat,
      slotName path ext i = slotName path ext j → i = j)
    (hocc : ∀ m ∈ Finset.Icc 1 k, fs (slotName path ext m) = some (c m))
    (hfree : ∀ m ∈ Finset.Icc (k + 1) rotate.toNat, fs (slotName path ext m) = none)
    (hnew : fs newFile = some cNew)
    (hns : ∀ m ∈ Finset.Icc 1 rotate.toNat, slotName path ext m ≠ newFile) :
    rotateItem fs filename rotate newFile (slotName path ext 1) = some cNew ∧
    (∀ m ∈ Finset.Icc 2 (min (k + 1) rotate.toNat),
      rotateItem fs filename rotate newFile (slotName path ext m) = some (c (m - 1))) ∧
    (∀ m ∈ Finset.Icc (min (k + 1) rotate.toNat + 1) rotate.toNat,
      rotateItem fs filename rotate newFile (slotName path ext m) = none) ∧
    rotateItem fs filename rotate newFile newFile = none := by
  have hrotn : 1 ≤ rotate.toNat := by omega
  -- plain-form hypotheses
  have hinj' : ∀ i j, 1 ≤ i → i ≤ rotate.toNat → 1 ≤ j → j ≤ rotate.toNat →
      slotName path ext i = slotName path ext j → i = j := by
    intro i j h1 h2 h3 h4 h
    exact hinj i (Finset.mem_Icc.mpr ⟨h1, h2⟩) j (Finset.mem_Icc.mpr ⟨h3, h4⟩) h
  have hocc' : ∀ m, 1 ≤ m → m ≤ k → fs (slotName path ext m) = some (c m) := by
    intro m h1 h2
    exact hocc m (Finset.mem_Icc.mpr ⟨h1, h2⟩)
  have hfree' : ∀ m, k + 1 ≤ m → m ≤ rotate.toNat → fs (slotName path ext m) = none := by
    intro m h1 h2
    exact hfree m (Finset.mem_Icc.mpr ⟨h1, h2⟩)
  have hns' : ∀ m, 1 ≤ m → m ≤ rotate.toNat → slotName path ext m ≠ newFile := by
    intro m h1 h2
    exact hns m (Finset.mem_Icc.mpr ⟨h1, h2⟩)
  -- reduction of rotateItem to its zeta-normal form
  have hri0 : rotateItem fs filename rotate newFile
      = (if (scanFrom fs path ext 1 rotate.toNat "" true).2.2
          then fsRename (shiftDown path ext
                ((scanFrom fs path ext 1 rotate.toNat "" true).1 - 1)
                (fsRemove fs (scanFrom fs path ext 1 rotate.toNat "" true).2.1)
                (scanFrom fs path ext 1 rotate.toNat "" true).2.1).1
              newFile (path ++ ".001" ++ ext)
          else fsRename (shiftDown path ext
                (scanFrom fs path ext 1 rotate.toNat "" true).1 fs
                (scanFrom fs path ext 1 rotate.toNat "" true).2.1).1
              newFile (path ++ ".001" ++ ext)) := by
    subst hpath hext
    unfold rotateItem
    by_cases hsc : (scanFrom fs (trimSuffix filename (goExt filename)) (goExt filename) 1
        rotate.toNat "" true).2.2 <;> simp [hsc]
  rw [← slotName_one path ext] at hri0
  by_cases hkr : k < rotate.toNat
  · -- a slot is free: the scan breaks at k + 1 and nothing is removed
    have hex : ∀ i, i < k → fsExists fs (slotName path ext (1 + i)) = true := by
      intro i hi
      unfold fsExists
      rw [hocc' (1 + i) (by omega) (by omega)]
      rfl
    have hmiss : fsExists fs (slotName path ext (1 + k)) = false := by
      unfold fsExists
      rw [hfree' (1 + k) (by omega) (by omega)]
      rfl
    have hscan := scanFrom_break fs path ext k rotate.toNat 1 "" true (by omega) hex hmiss
    rw [hscan] at hri0
    simp only [Bool.false_eq_true, if_false] at hri0
    have e1 : 1 + k = k + 1 := by omega
    rw [e1] at hri0
    have hpre1 : ∀ m, 1 ≤ m → m < k + 1 → (fs (slotName path ext m)).isSome = true := by
      intro m h1 h2
      rw [hocc' m h1 (by omega)]
      rfl
    have hpre2 : ∀ i j, 1 ≤ i → i ≤ k + 1 → 1 ≤ j → j ≤ k + 1 →
        slotName path ext i = slotName path ext j → i = j := by
      intro i j h1 h2 h3 h4 h
      exact hinj' i j h1 (by omega) h3 (by omega) h
    have hsh := shiftDown_spec path ext (k + 1) fs hpre1 hpre2
    have hshnew : (shiftDown path ext (k + 1) fs (slotName path ext (k + 1))).1 newFile
        = some cNew := by
      rw [hsh.2.2 newFile (fun mm h1 h2 => (hns' mm h1 (by omega)).symm)]
      exact hnew
    have hmin : min (k + 1) rotate.toNat = k + 1 := Nat.min_eq_left (by omega)
    rw [hmin, hri0]
    refine ⟨?_, ?_, ?_, ?_⟩
    · exact fsRename_dst _ _ _ cNew hshnew
    · intro m hm
      rw [Finset.mem_Icc] at hm
      have hne1 : slotName path ext m ≠ newFile := hns' m (by omega) (by omega)
      have hne2 : slotName path ext m ≠ slotName path ext 1 := by
        intro h
        have := hinj' m 1 (by omega) (by omega) (by omega) (by omega) h
        omega
      rw [fsRename_other _ _ _ _ hne1 hne2, hsh.1 m (by omega) (by omega)]
      exact hocc' (m - 1) (by omega) (by omega)
    · intro m hm
      rw [Finset.mem_Icc] at hm
      have hne1 : slotName path ext m ≠ newFile := hns' m (by omega) (by omega)
      have hne2 : slotName path ext m ≠ slotName path ext 1 := by
        intro h
        have := hinj' m 1 (by omega) (by omega) (by omega) (by omega) h
        omega
      have hout : ∀ mm, 1 ≤ mm → mm ≤ k + 1 → slotName path ext m ≠ slotName path ext mm := by
        intro mm h1 h2 h
        have := hinj' m mm (by omega) (by omega) h1 (by omega) h
        omega
      rw [fsRename_other _ _ _ _ hne1 hne2, hsh.2.2 _ hout]
      exact hfree' m (by omega) (by omega)
    · exact fsRename_src_ne _ _ _ cNew hshnew (Ne.symm (hns' 1 (by omega) (by omega)))
  · -- every slot is occupied: the scan completes, slot rotate is removed
    have hkeq : k = rotate.toNat := by omega
    have hex : ∀ i, i < rotate.toNat → fsExists fs (slotName path ext (1 + i)) = true := by
      intro i hi
      unfold fsExists
      rw [hocc' (1 + i) (by omega) (by omega)]
      rfl
    have hscan := scanFrom_all_exist fs path ext rotate.toNat 1 "" true (by omega) hex
    rw [hscan] at hri0
    simp only [if_true] at hri0
    have e1 : 1 + rotate.toNat - 1 = rotate.toNat := by omega
    rw [e1] at hri0
    set fs1 := fsRemove fs (slotName path ext rotate.toNat) with hfs1
    have hpre1 : ∀ m, 1 ≤ m → m < rotate.toNat →
        (fs1 (slotName path ext m)).isSome = true := by
      intro m h1 h2
      have hne : slotName path ext m ≠ slotName path ext rotate.toNat := by
        intro h
        have := hinj' m rotate.toNat h1 (by omega) (by omega) (by omega) h
        omega
      rw [hfs1, fsRemove_other fs _ _ hne, hocc' m h1 (by omega)]
      rfl
    have hpre2 : ∀ i j, 1 ≤ i → i ≤ rotate.toNat → 1 ≤ j → j ≤ rotate.toNat →
        slotName path ext i = slotName path ext j → i = j := hinj'
    have hsh := shiftDown_spec path ext rotate.toNat fs1 hpre1 hpre2
    have hshnew : (shiftDown path ext rotate.toNat fs1
        (slotName path ext rotate.toNat)).1 newFile = some cNew := by
      rw [hsh.2.2 newFile (fun mm h1 h2 => (hns' mm h1 h2).symm), hfs1,
        fsRemove_other fs (slotName path ext rotate.toNat) newFile
          (Ne.symm (hns' rotate.toNat (by omega) (by omega)))]
      exact hnew
    have hmin : min (k + 1) rotate.toNat = rotate.toNat := Nat.min_eq_right (by omega)
    rw [hmin, hri0]
    refine ⟨?_, ?_, ?_, ?_⟩
    · exact fsRename_dst _ _ _ cNew hshnew
    · intro m hm
      rw [Finset.mem_Icc] at hm
      have hne1 : slotName path ext m ≠ newFile := hns' m (by omega) (by omega)
      have hne2 : slotName path ext m ≠ slotName path ext 1 := by
        intro h
        have := hinj' m 1 (by omega) (by omega) (by omega) (by omega) h
        omega
      rw [fsRename_other _ _ _ _ hne1 hne2, hsh.1 m (by omega) (by omega)]
      have hne3 : slotName path ext (m - 1) ≠ slotName path ext rotate.toNat := by
        intro h
        have := hinj' (m - 1) rotate.toNat (by omega) (by omega) (by omega) (by omega) h
        omega
      rw [hfs1, fsRemove_other fs _ _ hne3]
      exact hocc' (m - 1) (by omega) (by omega)
    · intro m hm
      rw [Finset.mem_Icc] at hm
      omega
    · exact fsRename_src_ne _ _ _ cNew hshnew (Ne.symm (hns' 1 (by omega) (by omega)))

/-- C3: once Close closes the messages channel, the write loop drains
every line still queued, flushes the buffered writer and closes the file:
afterwards the handle is closed, the buffer is empty, and the file holds
exactly the previous content (disk plus unflushed buffer) followed by
every queued line in order. -/
theorem close_drains_queued_lines (f : FileLogWriter) (disk : FS) (headerLine : String)
    (queue : List String) (hh : f.header = "") (hwf : f.writer.wfBuf) :
    (f.runToClose disk headerLine queue).1.writer.isOpen = false ∧
    (f.runToClose disk headerLine queue).1.writer.buf = "" ∧
    ((f.runToClose disk headerLine queue).2 f.writer.filename).getD ""
      = f.writer.contentOf disk ++ joinAll queue :=
  runToClose_spec queue f disk headerLine hh hwf

theorem close_drains_queued_lines_witness :
    flwBuffered.header = "" ∧ flwBuffered.writer.wfBuf ∧
    (flwBuffered.runToClose diskSample "" ["one ", "", "two"]).1.writer.isOpen = false ∧
    ((flwBuffered.runToClose diskSample "" ["one ", "", "two"]).2
        flwBuffered.writer.filename).getD "" = "hiearly one two" :=
  ⟨rfl, by decide,
    (close_drains_queued_lines flwBuffered diskSample "" ["one ", "", "two"] rfl (by decide)).1,
    (close_drains_queued_lines flwBuffered diskSample "" ["one ", "", "two"] rfl
      (by decide)).2.2.trans (by decide)⟩

theorem intRotate_below_threshold_witness :
    flwSample.writer.seekCur diskSample < flwSample.maxsize ∧
    flwSample.intRotate diskSample "" ".t" false = (flwSample, diskSample, {}) ∧
    (rotTick "" ".t" false)^[5] (flwSample, diskSample) = (flwSample, diskSample) ∧
    ((flwBig.intRotate diskSample "" ".t" true).2.2 ≠ ({} : RotEffects) ∧
      flwBig.maxsize ≤ flwBig.writer.seekCur diskSample) :=
  ⟨by decide,
    ((intRotate_below_threshold flwSample diskSample "" ".t" false).1 (by decide)).1,
    ((intRotate_below_threshold flwSample diskSample "" ".t" false).1 (by decide)).2 5,
    by decide,
    (intRotate_below_threshold flwBig diskSample "" ".t" true).2 (by decide)⟩

theorem intRotate_rename_failure_witness :
    flwBig.maxsize < flwBig.writer.seekCur diskSample ∧ 0 < flwBig.maxrotate ∧
    (flwBig.intRotate diskSample "" ".t" true).2.2.renameFailed = true ∧
    (flwBig.intRotate diskSample "" ".t" true).2.2.handedToShifter = none ∧
    (flwBig.intRotate diskSample "" ".t" true).2.2.removed = false :=
  ⟨by decide, by decide,
    (intRotate_rename_failure flwBig diskSample "" ".t" vSample (by decide) (by decide)).1,
    (intRotate_rename_failure flwBig diskSample "" ".t" vSample (by decide) (by decide)).2.1,
    (intRotate_rename_failure flwBig diskSample "" ".t" vSample (by decide) (by decide)).2.2.1⟩

theorem intRotate_norotate_deletes_witness :
    flwNoRot.maxsize < flwNoRot.writer.seekCur diskSample ∧ flwNoRot.maxrotate ≤ 0 ∧
    (flwNoRot.intRotate diskSample "" ".t" false).2.1 flwNoRot.filename = none ∧
    (flwNoRot.intRotate diskSample "" ".t" false).2.2.handedToShifter = none :=
  ⟨by decide, by decide,
    (intRotate_norotate_deletes flwNoRot diskSample "" ".t" false (by decide) (by decide)
      rfl).2.2.2.1,
    (intRotate_norotate_deletes flwNoRot diskSample "" ".t" false (by decide) (by decide)
      rfl).2.1⟩

theorem nextRotateTime_cases_witness :
    (0 : Int) ≤ flwSample.delay0 ∧
    flwSample.nextRotateTime 100000 = (midnightOf 100000 + 86400) + flwSample.delay0 ∧
    (100000 : Int) < flwSample.nextRotateTime 100000 :=
  ⟨by decide,
    ((nextRotateTime_cases flwSample 100000).2 (by decide)).1,
    ((nextRotateTime_cases flwSample 100000).2 (by decide)).2⟩

theorem resetStep_nop_and_default_witness :
    ¬(vSample.oldCycle = flwCycleOne.cycle ∧ vSample.oldDelay0 = flwCycleOne.delay0) ∧
    flwCycleOne.cycle < 2 ∧
    (flwCycleOne.resetStep vSample 0).1 = { flwCycleOne with cycle := 86400 } :=
  ⟨by decide, by decide,
    ((resetStep_nop_and_default flwCycleOne vSample 0).2 (by decide) (by decide)).1⟩

/-- C5 counterexample: with a changed configuration and cycle 1, the loop
stores 86400, not the claimed clamp floor of 2 seconds. -/
theorem resetStep_not_clamped_to_two :
    ¬(vSample.oldCycle = flwCycleOne.cycle ∧ vSample.oldDelay0 = flwCycleOne.delay0) ∧
    flwCycleOne.cycle < 2 ∧
    (flwCycleOne.resetStep vSample 0).1.cycle = 86400 ∧
    (flwCycleOne.resetStep vSample 0).1.cycle ≠ 2 := by
  refine ⟨by decide, by decide, by decide, by decide⟩

theorem rotate_contiguous_shift_witness :
    (1 : Int) ≤ 3 ∧ 2 ≤ (3 : Int).toNat ∧
    rotateItem diskRot "app.log" 3 "app.log.20060102-150405" (slotName "app" ".log" 1)
      = some "pend" ∧
    rotateItem diskRot "app.log" 3 "app.log.20060102-150405" (slotName "app" ".log" 3)
      = some "n2" ∧
    rotateItem diskRot "app.log" 3 "app.log.20060102-150405" "app.log.20060102-150405"
      = none :=
  ⟨by decide, by decide,
    (rotate_contiguous_shift diskRot "app.log" "app.log.20060102-150405" "app" ".log" 3 2
      cRot "pend" (by decide) (by decide) (by decide) (by decide) (by decide) (by decide)
      (by decide) (by decide) (by decide)).1,
    (rotate_contiguous_shift diskRot "app.log" "app.log.20060102-150405" "app" ".log" 3 2
      cRot "pend" (by decide) (by decide) (by decide) (by decide) (by decide) (by decide)
      (by decide) (by decide) (by decide)).2.1 3 (by decide),
    (rotate_contiguous_shift diskRot "app.log" "app.log.20060102-150405" "app" ".log" 3 2
      cRot "pend" (by decide) (by decide) (by decide) (by decide) (by decide) (by decide)
      (by decide) (by decide) (by decide)).2.2.2⟩
